import Mathlib

/-!
Shallow embedding of the recipe-app backend.

The embedding covers the data model (User/Recipe/Tag/Ingredient rows scoped to
an owning user), the serializer logic of `app/recipe/serializers.py`
(`TagSerializer`, `RecipeSerializer` with its nested get-or-create tag
handling, `RecipeDetailSerializer`), and the view logic of
`app/recipe/views.py` (`RecipeViewSet`, `TagViewSet`): user-scoped querysets,
detail-object lookup, serializer-class selection, and the HTTP-method-to-action
dispatch the framework's router performs over the actions each viewset
actually provides.

Users, database rows and ids are modelled as plain data; the database is a
record of row lists plus fresh-id counters; each HTTP operation is a function
from a database state and a request to a status code and a new state.
-/

namespace RecipeApp

/-- Modelled from the spec: a Tag row (`core.models.Tag` is not under `src/`):
belongs to exactly one user and holds a name. -/
structure Tag where
  id : Nat
  user : Nat
  name : String
deriving DecidableEq, Repr

/-- Modelled from the spec: an Ingredient row (`core.models.Ingredient` is not
under `src/`): belongs to exactly one user and holds a name. -/
structure Ingredient where
  id : Nat
  user : Nat
  name : String
deriving DecidableEq, Repr

/-- Modelled from the spec: a Recipe row (`core.models.Recipe` is not under
`src/`): belongs to exactly one user; title, time estimate, price (a decimal,
carried here as a scaled integer), optional link and description; the
many-to-many associations with Tag and Ingredient are carried as id lists. -/
structure Recipe where
  id : Nat
  user : Nat
  title : String
  time_minutes : Nat
  price : Int
  link : String
  description : String
  tagIds : List Nat
  ingredientIds : List Nat
deriving DecidableEq, Repr

/-- The database state: the rows of each table plus fresh-id counters for the
tables the embedded operations insert into. -/
structure DB where
  recipes : List Recipe
  tags : List Tag
  ingredients : List Ingredient
  nextRecipeId : Nat
  nextTagId : Nat
deriving DecidableEq, Repr

/-! Declared serializer fields, copied from `app/recipe/serializers.py`. -/

/-- Fields of `TagSerializer`. -/
def TagSerializer.fields : List String := ["id", "name"]

/-- Read-only fields of `TagSerializer`. -/
def TagSerializer.read_only_fields : List String := ["id"]

/-- Fields of `RecipeSerializer`; note there is no `ingredients` entry and no
`user` entry. -/
def RecipeSerializer.fields : List String :=
  ["id", "title", "time_minutes", "price", "link", "tags"]

/-- Read-only fields of `RecipeSerializer`. -/
def RecipeSerializer.read_only_fields : List String := ["id"]

/-- Fields of `RecipeDetailSerializer`: the parent's fields plus
`description`. -/
def RecipeDetailSerializer.fields : List String :=
  RecipeSerializer.fields ++ ["description"]

/-- Read-only fields of `RecipeDetailSerializer` (inherited). -/
def RecipeDetailSerializer.read_only_fields : List String :=
  RecipeSerializer.read_only_fields

/-- An incoming JSON payload for a recipe endpoint: each key the client may
send, absent keys as `none`.  A nested tag or ingredient dict carries only its
`name` key (`id` is read-only on the nested serializer), so the nested lists
are carried as lists of names. -/
structure RawPayload where
  title : Option String := none
  time_minutes : Option Nat := none
  price : Option Int := none
  link : Option String := none
  description : Option String := none
  tags : Option (List String) := none
  ingredients : Option (List String) := none
  user : Option Nat := none
deriving DecidableEq, Repr

/-- The serializer's `validated_data`: same shape as the raw payload, after
field filtering. -/
structure ValidatedData where
  title : Option String := none
  time_minutes : Option Nat := none
  price : Option Int := none
  link : Option String := none
  description : Option String := none
  tags : Option (List String) := none
  ingredients : Option (List String) := none
  user : Option Nat := none
deriving DecidableEq, Repr

/-- Whether a key is writable for a serializer: declared in `fields` and not in
`read_only_fields`. -/
def writableB (fields ro : List String) (k : String) : Bool :=
  fields.contains k && !(ro.contains k)

/-- Keeps a payload value only when its key is writable. -/
def keepField {α : Type} (fields ro : List String) (k : String) (v : Option α) :
    Option α :=
  if writableB fields ro k then v else none

/-- Framework validation step: `validated_data` holds exactly the writable
declared fields present in the payload; undeclared keys (such as `user` or
`ingredients` for the recipe serializers) are dropped. -/
def to_internal_value (fields ro : List String) (p : RawPayload) : ValidatedData :=
  { title := keepField fields ro "title" p.title
    time_minutes := keepField fields ro "time_minutes" p.time_minutes
    price := keepField fields ro "price" p.price
    link := keepField fields ro "link" p.link
    description := keepField fields ro "description" p.description
    tags := keepField fields ro "tags" p.tags
    ingredients := keepField fields ro "ingredients" p.ingredients
    user := keepField fields ro "user" p.user }

/-- Many-to-many `add`: links an id into an association set when absent. -/
def addAssoc (assoc : List Nat) (tid : Nat) : List Nat :=
  if assoc.contains tid then assoc else assoc ++ [tid]

/-- Embeds `Tag.objects.get_or_create(user=auth_user, **tag)`: return the first
row matching the (user, name) pair, or insert a fresh row for it. -/
def get_or_create_tag (db : DB) (auth_user : Nat) (n : String) : Tag × DB :=
  match db.tags.find? (fun t => t.user == auth_user && t.name == n) with
  | some t => (t, db)
  | none =>
    let t : Tag := ⟨db.nextTagId, auth_user, n⟩
    (t, { db with tags := db.tags ++ [t], nextTagId := db.nextTagId + 1 })

/-- Embeds `RecipeSerializer._get_or_create_tags`: for each tag name in order,
get or create the row under the authenticated user and link it into the
recipe's association set. -/
def get_or_create_tags (db : DB) (auth_user : Nat) (names : List String)
    (assoc : List Nat) : List Nat × DB :=
  match names with
  | [] => (assoc, db)
  | n :: ns =>
    let p := get_or_create_tag db auth_user n
    get_or_create_tags p.2 auth_user ns (addAssoc assoc p.1.id)

/-- Persists a recipe row: every stored row with the same id is replaced (this
covers both `instance.save()` and the association writes of `tags.add`). -/
def saveRecipe (db : DB) (r : Recipe) : DB :=
  { db with recipes := db.recipes.map (fun x => if x.id == r.id then r else x) }

/-- Fields of the recipe row `Recipe.objects.create(**validated_data)` builds:
owner from `serializer.save(user=self.request.user)` in `perform_create`,
scalars from the validated data, fresh id, no associations yet. -/
def RecipeSerializer.newRow (db : DB) (auth_user : Nat) (v : ValidatedData) :
    Recipe :=
  { id := db.nextRecipeId
    user := auth_user
    title := v.title.getD ""
    time_minutes := v.time_minutes.getD 0
    price := v.price.getD 0
    link := v.link.getD ""
    description := v.description.getD ""
    tagIds := []
    ingredientIds := [] }

/-- Inserts a freshly created recipe row and advances the id counter. -/
def insertRecipe (db : DB) (r : Recipe) : DB :=
  { db with
    recipes := db.recipes ++ [r]
    nextRecipeId := db.nextRecipeId + 1 }

/-- Embeds `RecipeSerializer.create`: pop `tags` with default `[]`, create the
recipe row (`perform_create` passes `user=self.request.user` into
`serializer.save`, so the owner is the requesting user), then get-or-create
and link each tag.  The serializer declares no `ingredients` field, so the new
recipe has no ingredient associations. -/
def RecipeSerializer.create (db : DB) (auth_user : Nat) (v : ValidatedData) :
    Recipe × DB :=
  let r0 := RecipeSerializer.newRow db auth_user v
  let db1 := insertRecipe db r0
  let p := get_or_create_tags db1 auth_user (v.tags.getD []) []
  let r1 := { r0 with tagIds := p.1 }
  (r1, saveRecipe p.2 r1)

/-- Embeds the `setattr(instance, attr, value)` loop over the remaining keys of
`validated_data` (after `tags` was popped): every present scalar attribute is
assigned, including `user` when present. -/
def applyAttrs (r : Recipe) (v : ValidatedData) : Recipe :=
  { r with
    title := v.title.getD r.title
    time_minutes := v.time_minutes.getD r.time_minutes
    price := v.price.getD r.price
    link := v.link.getD r.link
    description := v.description.getD r.description
    user := v.user.getD r.user }

/-- Embeds `RecipeSerializer.update`: pop `tags` with default `None`; when the
key is present (even as an empty list) clear the association set and re-add
from the payload; then assign every remaining attribute and save. -/
def RecipeSerializer.update (db : DB) (auth_user : Nat) (inst : Recipe)
    (v : ValidatedData) : Recipe × DB :=
  let p :=
    match v.tags with
    | none => ((inst.tagIds, db) : List Nat × DB)
    | some names => get_or_create_tags db auth_user names []
  let r1 := applyAttrs { inst with tagIds := p.1 } v
  (r1, saveRecipe p.2 r1)

/-! Ordering used by the querysets. -/

/-- Inserts an element in front of the first list element it compares
less-or-equal to. -/
def insertBy {α : Type} (le : α → α → Bool) (a : α) : List α → List α
  | [] => [a]
  | b :: bs => if le a b then a :: b :: bs else b :: insertBy le a bs

/-- Insertion sort by a boolean comparison; the model of `order_by`. -/
def sortBy {α : Type} (le : α → α → Bool) : List α → List α
  | [] => []
  | a :: as => insertBy le a (sortBy le as)

/-- Lexicographic comparison of character lists, the database collation model
for name ordering. -/
def strLeB : List Char → List Char → Bool
  | [], _ => true
  | _ :: _, [] => false
  | a :: as, b :: bs => if a < b then true else if b < a then false else strLeB as bs

/-- Lexicographic comparison of names. -/
def nameLe (a b : String) : Bool := strLeB a.data b.data

/-! View layer, from `app/recipe/views.py`. -/

/-- Embeds `RecipeViewSet.get_queryset`: the rows owned by the requesting user,
ordered by id descending (`order_by('-id')`). -/
def RecipeViewSet.get_queryset (db : DB) (request_user : Nat) : List Recipe :=
  sortBy (fun a b => decide (b.id ≤ a.id))
    (db.recipes.filter (fun r => r.user == request_user))

/-- Framework `get_object`: look the requested id up inside the user-scoped
queryset; absence means 404. -/
def RecipeViewSet.get_object (db : DB) (request_user rid : Nat) : Option Recipe :=
  (RecipeViewSet.get_queryset db request_user).find? (fun r => r.id == rid)

/-- Embeds `RecipeViewSet.get_serializer_class`: the list action serializes
with `RecipeSerializer`, every other action with `RecipeDetailSerializer`;
returned here as the (fields, read-only fields) pair of the chosen class. -/
def RecipeViewSet.get_serializer_class (action : String) :
    List String × List String :=
  if action == "list" then (RecipeSerializer.fields, RecipeSerializer.read_only_fields)
  else (RecipeDetailSerializer.fields, RecipeDetailSerializer.read_only_fields)

/-- Actions `RecipeViewSet` provides: exactly those of
`viewsets.ModelViewSet`, which it extends. -/
def RecipeViewSet.actions : List String :=
  ["list", "create", "retrieve", "update", "partial_update", "destroy"]

/-- Extra routes declared with an `@action` decorator in the `RecipeViewSet`
class body of `app/recipe/views.py`: there are none (in particular no
`upload_image` route). -/
def RecipeViewSet.extra_actions : List String := []

/-- Actions `TagViewSet` provides: those of the mixins it extends —
`DestroyModelMixin`, `UpdateModelMixin`, `ListModelMixin` over
`GenericViewSet`.  There is no `RetrieveModelMixin` and no
`CreateModelMixin`. -/
def TagViewSet.actions : List String :=
  ["destroy", "update", "partial_update", "list"]

/-- HTTP methods of the detail routes. -/
inductive Method
  | get
  | put
  | patch
  | delete
deriving DecidableEq, Repr

/-- Router detail-route mapping: the viewset action each HTTP method is bound
to when the viewset provides it. -/
def detailActionName : Method → String
  | .get => "retrieve"
  | .put => "update"
  | .patch => "partial_update"
  | .delete => "destroy"

/-- Outcome of an HTTP request: status code and resulting database state. -/
structure HttpResult where
  status : Nat
  db : DB
deriving DecidableEq, Repr

/-- Dispatch of a request to `/recipes/{id}/`: 405 when the viewset does not
provide the action for the method, 404 when the id is absent from the
user-scoped queryset, otherwise run the action — updates validate through the
detail serializer, delete removes the row. -/
def recipeDetailRequest (db : DB) (request_user rid : Nat) (m : Method)
    (raw : RawPayload) : HttpResult :=
  if !(RecipeViewSet.actions.contains (detailActionName m)) then ⟨405, db⟩
  else
    match RecipeViewSet.get_object db request_user rid with
    | none => ⟨404, db⟩
    | some inst =>
      match m with
      | .get => ⟨200, db⟩
      | .put | .patch =>
        let fr := RecipeViewSet.get_serializer_class (detailActionName m)
        let v := to_internal_value fr.1 fr.2 raw
        ⟨200, (RecipeSerializer.update db request_user inst v).2⟩
      | .delete => ⟨204, { db with recipes := db.recipes.filter (fun r => !(r == inst)) }⟩

/-- Dispatch of `POST /recipes/`: validate through the detail serializer
(`get_serializer_class` for a non-list action) and create under the requesting
user (`perform_create`). -/
def recipeCreateRequest (db : DB) (request_user : Nat) (raw : RawPayload) :
    Recipe × DB :=
  let fr := RecipeViewSet.get_serializer_class "create"
  let v := to_internal_value fr.1 fr.2 raw
  RecipeSerializer.create db request_user v

/-- Embeds `TagViewSet.get_queryset`: the requesting user's tags ordered by
name descending (`order_by('-name')`). -/
def TagViewSet.get_queryset (db : DB) (request_user : Nat) : List Tag :=
  sortBy (fun a b => nameLe b.name a.name)
    (db.tags.filter (fun t => t.user == request_user))

/-- Framework `get_object` for the tag detail routes. -/
def TagViewSet.get_object (db : DB) (request_user tid : Nat) : Option Tag :=
  (TagViewSet.get_queryset db request_user).find? (fun t => t.id == tid)

/-- Persists a tag row by id. -/
def saveTag (db : DB) (t : Tag) : DB :=
  { db with tags := db.tags.map (fun x => if x.id == t.id then t else x) }

/-- Embeds a `TagSerializer` update: `name` is the only writable field. -/
def TagSerializer.update (t : Tag) (newName : Option String) : Tag :=
  { t with name := newName.getD t.name }

/-- Dispatch of a request to `/tags/{id}/`: 405 when the viewset does not
provide the action for the method (there is no retrieve action), 404 when the
id is absent from the user-scoped queryset, otherwise run the action. -/
def tagDetailRequest (db : DB) (request_user tid : Nat) (m : Method)
    (newName : Option String) : HttpResult :=
  if !(TagViewSet.actions.contains (detailActionName m)) then ⟨405, db⟩
  else
    match TagViewSet.get_object db request_user tid with
    | none => ⟨404, db⟩
    | some inst =>
      match m with
      | .get => ⟨200, db⟩
      | .put | .patch => ⟨200, saveTag db (TagSerializer.update inst newName)⟩
      | .delete => ⟨204, { db with tags := db.tags.filter (fun t => !(t == inst)) }⟩

/-! Serialized output, for the list/detail field claims. -/

/-- A JSON value. -/
inductive JVal
  | jstr (s : String)
  | jnat (n : Nat)
  | jint (i : Int)
  | jarr (xs : List JVal)
  | jobj (kvs : List (String × JVal))

/-- Nested serialized form of a tag. -/
def serializeTag (t : Tag) : JVal :=
  .jobj [("id", .jnat t.id), ("name", .jstr t.name)]

/-- Resolves a recipe's association ids to the tag rows. -/
def resolveTags (db : DB) (r : Recipe) : List Tag :=
  r.tagIds.filterMap (fun tid => db.tags.find? (fun t => t.id == tid))

/-- Value a recipe serializer emits for one declared field. -/
def recipeFieldValue (db : DB) (r : Recipe) : String → JVal
  | "id" => .jnat r.id
  | "title" => .jstr r.title
  | "time_minutes" => .jnat r.time_minutes
  | "price" => .jint r.price
  | "link" => .jstr r.link
  | "description" => .jstr r.description
  | "tags" => .jarr ((resolveTags db r).map serializeTag)
  | _ => .jobj []

/-- Serializer output: one key/value pair per declared field, in declaration
order. -/
def to_representation (fields : List String) (db : DB) (r : Recipe) :
    List (String × JVal) :=
  fields.map (fun k => (k, recipeFieldValue db r k))

/-! Well-formedness of a database state. -/

/-- Tag-table well-formedness: no two rows share a (user, name) pair. -/
abbrev tagsWF (ts : List Tag) : Prop :=
  (ts.map (fun t => (t.user, t.name))).Nodup

/-- Number of tag rows for a given (user, name) pair. -/
def tagCount (ts : List Tag) (u : Nat) (n : String) : Nat :=
  (ts.filter (fun t => t.user == u && t.name == n)).length

/-- Ownership invariant: every tag and ingredient linked to a recipe is a row
owned by the same user as the recipe. -/
abbrev ownInv (db : DB) : Prop :=
  ∀ r ∈ db.recipes,
    (∀ x ∈ r.tagIds, ∃ t ∈ db.tags, t.id = x ∧ t.user = r.user) ∧
    (∀ x ∈ r.ingredientIds, ∃ t ∈ db.ingredients, t.id = x ∧ t.user = r.user)

/-! Lemmas about the sorting used by the querysets. -/

theorem mem_insertBy {α : Type} (le : α → α → Bool) (a x : α) (l : List α) :
    x ∈ insertBy le a l ↔ x = a ∨ x ∈ l := by
  induction l with
  | nil => simp [insertBy]
  | cons b bs ih =>
    simp only [insertBy]
    split
    · simp [List.mem_cons]
    · simp only [List.mem_cons, ih]
      tauto

theorem insertBy_perm {α : Type} (le : α → α → Bool) (a : α) (l : List α) :
    (insertBy le a l).Perm (a :: l) := by
  induction l with
  | nil => simp [insertBy]
  | cons b bs ih =>
    simp only [insertBy]
    split
    · exact List.Perm.refl _
    · exact List.Perm.trans (List.Perm.cons b ih) (List.Perm.swap a b bs)

theorem sortBy_perm {α : Type} (le : α → α → Bool) (l : List α) :
    (sortBy le l).Perm l := by
  induction l with
  | nil => exact List.Perm.refl _
  | cons a as ih =>
    exact List.Perm.trans (insertBy_perm le a (sortBy le as)) (List.Perm.cons a ih)

theorem pairwise_insertBy {α : Type} {le : α → α → Bool}
    (htot : ∀ a b, le a b = true ∨ le b a = true)
    (htrans : ∀ a b c, le a b = true → le b c = true → le a c = true)
    (a : α) {l : List α} (hl : l.Pairwise (fun x y => le x y = true)) :
    (insertBy le a l).Pairwise (fun x y => le x y = true) := by
  induction l with
  | nil => simp [insertBy]
  | cons b bs ih =>
    rcases List.pairwise_cons.mp hl with ⟨hb, hbs⟩
    simp only [insertBy]
    split
    next h =>
      refine List.pairwise_cons.mpr ⟨?_, hl⟩
      intro c hc
      rcases List.mem_cons.mp hc with rfl | hc
      · exact h
      · exact htrans a b c h (hb c hc)
    next h =>
      refine List.pairwise_cons.mpr ⟨?_, ih hbs⟩
      intro c hc
      rcases (mem_insertBy le a c bs).mp hc with rfl | hc
      · rcases htot c b with h1 | h1
        · exact absurd h1 h
        · exact h1
      · exact hb c hc

theorem pairwise_sortBy {α : Type} {le : α → α → Bool}
    (htot : ∀ a b, le a b = true ∨ le b a = true)
    (htrans : ∀ a b c, le a b = true → le b c = true → le a c = true)
    (l : List α) :
    (sortBy le l).Pairwise (fun x y => le x y = true) := by
  induction l with
  | nil => exact List.Pairwise.nil
  | cons a as ih => exact pairwise_insertBy htot htrans a ih

theorem strLeB_total : ∀ as bs : List Char, strLeB as bs = true ∨ strLeB bs as = true
  | [], _ => Or.inl rfl
  | _ :: _, [] => Or.inr rfl
  | a :: as, b :: bs => by
    rcases lt_trichotomy a b with h | h | h
    · left; simp [strLeB, h]
    · subst h
      rcases strLeB_total as bs with h1 | h1
      · left; simp [strLeB, lt_irrefl, h1]
      · right; simp [strLeB, lt_irrefl, h1]
    · right; simp [strLeB, h]

theorem strLeB_trans : ∀ as bs cs : List Char,
    strLeB as bs = true → strLeB bs cs = true → strLeB as cs = true
  | [], _, _ => fun _ _ => rfl
  | _ :: _, [], _ => fun h1 _ => by simp [strLeB] at h1
  | _ :: _, _ :: _, [] => fun _ h2 => by simp [strLeB] at h2
  | a :: as, b :: bs, c :: cs => fun h1 h2 => by
    rcases lt_trichotomy a b with hab | hab | hab
    · rcases lt_trichotomy b c with hbc | hbc | hbc
      · simp [strLeB, hab.trans hbc]
      · subst hbc; simp [strLeB, hab]
      · exfalso; simp [strLeB, lt_asymm hbc, hbc] at h2
    · subst hab
      rcases lt_trichotomy a c with hac | hac | hac
      · simp [strLeB, hac]
      · subst hac
        simp only [strLeB, lt_irrefl, if_false] at h1 h2 ⊢
        exact strLeB_trans as bs cs h1 h2
      · exfalso; simp [strLeB, lt_asymm hac, hac] at h2
    · exfalso; simp [strLeB, lt_asymm hab, hab] at h1

theorem nameLe_total (a b : String) : nameLe a b = true ∨ nameLe b a = true :=
  strLeB_total a.data b.data

theorem nameLe_trans (a b c : String) :
    nameLe a b = true → nameLe b c = true → nameLe a c = true :=
  strLeB_trans a.data b.data c.data

/-- C10: every recipe list is ordered by id descending (newest first) and is
exactly the requesting user's recipes; every tag list is ordered by name
descending and is exactly the requesting user's tags — for every database
state, hence regardless of insertion order. -/
theorem querysets_ordered (db : DB) (request_user : Nat) :
    (RecipeViewSet.get_queryset db request_user).Pairwise (fun a b => b.id ≤ a.id)
    ∧ (RecipeViewSet.get_queryset db request_user).Perm
        (db.recipes.filter (fun r => r.user == request_user))
    ∧ (TagViewSet.get_queryset db request_user).Pairwise
        (fun a b => nameLe b.name a.name = true)
    ∧ (TagViewSet.get_queryset db request_user).Perm
        (db.tags.filter (fun t => t.user == request_user)) := by
  refine ⟨?_, sortBy_perm _ _, ?_, sortBy_perm _ _⟩
  · have h := @pairwise_sortBy Recipe
      (fun a b : Recipe => decide (b.id ≤ a.id))
      (fun a b => by
        rcases Nat.le_total b.id a.id with h | h
        · left; simpa using h
        · right; simpa using h)
      (fun a b c h1 h2 => by
        simp only [decide_eq_true_eq] at h1 h2 ⊢
        exact le_trans h2 h1)
      (db.recipes.filter (fun r => r.user == request_user))
    exact h.imp (fun hab => by simpa using hab)
  · exact pairwise_sortBy
      (fun a b => by
        rcases nameLe_total b.name a.name with h | h
        · left; exact h
        · right; exact h)
      (fun a b c h1 h2 => nameLe_trans c.name b.name a.name h2 h1)
      (db.tags.filter (fun t => t.user == request_user))

/-! Facts about detail-object lookup. -/

theorem recipe_get_object_spec {db : DB} {ru rid : Nat} {inst : Recipe}
    (h : RecipeViewSet.get_object db ru rid = some inst) :
    inst ∈ db.recipes ∧ inst.user = ru ∧ inst.id = rid := by
  unfold RecipeViewSet.get_object RecipeViewSet.get_queryset at h
  have hp := List.find?_some h
  have hm := List.mem_of_find?_eq_some h
  have hm' : inst ∈ db.recipes.filter (fun r => r.user == ru) :=
    ((sortBy_perm _ _).mem_iff).mp hm
  rcases List.mem_filter.mp hm' with ⟨hmem, hu⟩
  exact ⟨hmem, by simpa using hu, by simpa using hp⟩

theorem tag_get_object_spec {db : DB} {ru tid : Nat} {inst : Tag}
    (h : TagViewSet.get_object db ru tid = some inst) :
    inst ∈ db.tags ∧ inst.user = ru ∧ inst.id = tid := by
  unfold TagViewSet.get_object TagViewSet.get_queryset at h
  have hp := List.find?_some h
  have hm := List.mem_of_find?_eq_some h
  have hm' : inst ∈ db.tags.filter (fun t => t.user == ru) :=
    ((sortBy_perm _ _).mem_iff).mp hm
  rcases List.mem_filter.mp hm' with ⟨hmem, hu⟩
  exact ⟨hmem, by simpa using hu, by simpa using hp⟩

theorem recipe_get_object_none {db : DB} {ru : Nat} {r : Recipe}
    (hr : r ∈ db.recipes) (hru : r.user ≠ ru)
    (hids : (db.recipes.map Recipe.id).Nodup) :
    RecipeViewSet.get_object db ru r.id = none := by
  unfold RecipeViewSet.get_object RecipeViewSet.get_queryset
  apply List.find?_eq_none.mpr
  intro x hx hbeq
  have hx' : x ∈ db.recipes.filter (fun q => q.user == ru) :=
    ((sortBy_perm _ _).mem_iff).mp hx
  rcases List.mem_filter.mp hx' with ⟨hxm, hxu⟩
  have hid : x.id = r.id := by simpa using hbeq
  have hxr : x = r := List.inj_on_of_nodup_map hids hxm hr hid
  subst hxr
  exact hru (by simpa using hxu)

theorem tag_get_object_none {db : DB} {ru : Nat} {t : Tag}
    (ht : t ∈ db.tags) (htu : t.user ≠ ru)
    (hids : (db.tags.map Tag.id).Nodup) :
    TagViewSet.get_object db ru t.id = none := by
  unfold TagViewSet.get_object TagViewSet.get_queryset
  apply List.find?_eq_none.mpr
  intro x hx hbeq
  have hx' : x ∈ db.tags.filter (fun q => q.user == ru) :=
    ((sortBy_perm _ _).mem_iff).mp hx
  rcases List.mem_filter.mp hx' with ⟨hxm, hxu⟩
  have hid : x.id = t.id := by simpa using hbeq
  have hxt : x = t := List.inj_on_of_nodup_map hids hxm ht hid
  subst hxt
  exact htu (by simpa using hxu)

/-! Concrete states used by counterexamples and witnesses. -/

/-- A recipe owned by user 2. -/
def crossRecipe : Recipe := ⟨3, 2, "Other", 1, 100, "", "", [], []⟩

/-- A tag owned by user 2. -/
def crossTag : Tag := ⟨1, 2, "Dessert"⟩

/-- A state holding only rows of user 2, accessed below by user 1. -/
def dbCross : DB := ⟨[crossRecipe], [crossTag], [], 4, 2⟩

/-- A tag owned by user 1. -/
def ownTag : Tag := ⟨5, 1, "Vegan"⟩

/-- A state holding a tag of user 1, accessed below by user 1. -/
def dbOwnTag : DB := ⟨[], [ownTag], [], 1, 6⟩

/-- C4 counterexample: a GET detail request addressed by user 1 to the tag of
user 2 returns 405 method-not-allowed — not the 404 the claim asserts for
every retrieve request addressed to another user's tag — because the tag
viewset has no retrieve action. -/
theorem cross_user_tag_get_counterexample :
    (tagDetailRequest dbCross 1 1 .get none).status = 405
    ∧ ¬ (tagDetailRequest dbCross 1 1 .get none).status = 404 := by decide

/-- C4 (amended): for another user's recipe, every detail method returns 404
(never 403) and leaves the database unchanged; for another user's tag, the
supported detail methods PUT/PATCH/DELETE return 404 and leave the database
unchanged, while GET returns 405 for every requester since the tag viewset has
no retrieve action (ingredients have no endpoint at all); list queries return
only rows owned by the requester. -/
theorem cross_user_not_found (db : DB) (ru : Nat) (r : Recipe) (t : Tag)
    (m : Method) (raw : RawPayload) (newName : Option String)
    (hr : r ∈ db.recipes) (hru : r.user ≠ ru)
    (hrid : (db.recipes.map Recipe.id).Nodup)
    (ht : t ∈ db.tags) (htu : t.user ≠ ru)
    (htid : (db.tags.map Tag.id).Nodup) :
    (recipeDetailRequest db ru r.id m raw).status = 404
    ∧ (recipeDetailRequest db ru r.id m raw).db = db
    ∧ (m ≠ .get → (tagDetailRequest db ru t.id m newName).status = 404
        ∧ (tagDetailRequest db ru t.id m newName).db = db)
    ∧ (tagDetailRequest db ru t.id .get newName).status = 405
    ∧ (∀ x ∈ RecipeViewSet.get_queryset db ru, x.user = ru)
    ∧ (∀ x ∈ TagViewSet.get_queryset db ru, x.user = ru) := by
  have hnone := recipe_get_object_none hr hru hrid
  have htnone := tag_get_object_none ht htu htid
  refine ⟨?_, ?_, ?_, ?_, ?_, ?_⟩
  · cases m <;>
      simp [recipeDetailRequest, hnone, RecipeViewSet.actions, detailActionName]
  · cases m <;>
      simp [recipeDetailRequest, hnone, RecipeViewSet.actions, detailActionName]
  · intro hm
    cases m with
    | get => exact absurd rfl hm
    | put =>
      exact ⟨by simp [tagDetailRequest, htnone, TagViewSet.actions, detailActionName],
        by simp [tagDetailRequest, htnone, TagViewSet.actions, detailActionName]⟩
    | patch =>
      exact ⟨by simp [tagDetailRequest, htnone, TagViewSet.actions, detailActionName],
        by simp [tagDetailRequest, htnone, TagViewSet.actions, detailActionName]⟩
    | delete =>
      exact ⟨by simp [tagDetailRequest, htnone, TagViewSet.actions, detailActionName],
        by simp [tagDetailRequest, htnone, TagViewSet.actions, detailActionName]⟩
  · simp [tagDetailRequest, TagViewSet.actions, detailActionName]
  · intro x hx
    have hx' : x ∈ db.recipes.filter (fun q => q.user == ru) :=
      ((sortBy_perm _ _).mem_iff).mp hx
    have := (List.mem_filter.mp hx').2
    simpa using this
  · intro x hx
    have hx' : x ∈ db.tags.filter (fun q => q.user == ru) :=
      ((sortBy_perm _ _).mem_iff).mp hx
    have := (List.mem_filter.mp hx').2
    simpa using this

/-- Witness for the amended C4 at a concrete cross-user state. -/
theorem cross_user_not_found_witness :
    (recipeDetailRequest dbCross 1 3 .delete {}).status = 404
    ∧ (tagDetailRequest dbCross 1 1 .delete none).status = 404 := by
  have h := cross_user_not_found dbCross 1 crossRecipe crossTag .delete {} none
    (by decide) (by decide) (by decide) (by decide) (by decide) (by decide)
  exact ⟨h.1, (h.2.2.1 (by decide)).1⟩

/-- C9 counterexample: even the authenticated owner gets 405
method-not-allowed from GET on the tag detail route — the tag viewset provides
no retrieve action, contradicting the claim that GET /tags/{id}/ retrieves a
single owned tag. -/
theorem tag_retrieve_not_allowed :
    TagViewSet.actions.contains "retrieve" = false
    ∧ (tagDetailRequest dbOwnTag 1 5 .get none).status = 405
    ∧ ¬ (tagDetailRequest dbOwnTag 1 5 .get none).status = 200 := by decide

/-- C9 (amended): for an authenticated owner, PUT and PATCH on /tags/{id}/
succeed with 200 and DELETE with 204, and the list action is provided for
GET /tags/; GET /tags/{id}/ returns 405 method-not-allowed because
`TagViewSet` includes no retrieve mixin. -/
theorem tag_endpoint_methods (db : DB) (ru : Nat) (t : Tag)
    (newName : Option String) (ht : t ∈ db.tags) (hu : t.user = ru) :
    (tagDetailRequest db ru t.id .put newName).status = 200
    ∧ (tagDetailRequest db ru t.id .patch newName).status = 200
    ∧ (tagDetailRequest db ru t.id .delete newName).status = 204
    ∧ (tagDetailRequest db ru t.id .get newName).status = 405
    ∧ TagViewSet.actions.contains "list" = true := by
  have hqs : t ∈ TagViewSet.get_queryset db ru := by
    unfold TagViewSet.get_queryset
    exact ((sortBy_perm _ _).mem_iff).mpr (List.mem_filter.mpr ⟨ht, by simp [hu]⟩)
  have hsome : ((TagViewSet.get_queryset db ru).find? (fun x => x.id == t.id)).isSome :=
    List.find?_isSome.mpr ⟨t, hqs, by simp⟩
  rcases Option.isSome_iff_exists.mp hsome with ⟨inst, hinst⟩
  have hobj : TagViewSet.get_object db ru t.id = some inst := hinst
  refine ⟨?_, ?_, ?_, ?_, rfl⟩ <;>
    simp [tagDetailRequest, hobj, TagViewSet.actions, detailActionName]

/-- Witness for the amended C9 at a concrete owned tag. -/
theorem tag_endpoint_methods_witness :
    (tagDetailRequest dbOwnTag 1 5 .patch (some "Sweet")).status = 200 :=
  (tag_endpoint_methods dbOwnTag 1 ownTag (some "Sweet") (by decide) (by decide)).2.1

/-- C5: the list serializer's output keys are exactly its declared fields,
which do not include `description`; the detail serializer's output is the list
serializer's output with the `description` pair appended, so the two agree on
every other declared field. -/
theorem list_detail_serialization (db : DB) (r : Recipe) :
    ((to_representation (RecipeViewSet.get_serializer_class "list").1 db r).map
        Prod.fst) = RecipeSerializer.fields
    ∧ RecipeSerializer.fields.contains "description" = false
    ∧ ((to_representation (RecipeViewSet.get_serializer_class "retrieve").1 db r).map
        Prod.fst) = RecipeSerializer.fields ++ ["description"]
    ∧ to_representation (RecipeViewSet.get_serializer_class "retrieve").1 db r
      = to_representation (RecipeViewSet.get_serializer_class "list").1 db r
        ++ [("description", recipeFieldValue db r "description")] :=
  ⟨rfl, rfl, rfl, rfl⟩

/-- C7: the upload-image endpoint the claim describes does not exist in the
code: `RecipeViewSet` provides only the standard model actions and its class
body declares no extra `@action` route, so there is no `upload_image` action
for a router to bind `POST /recipes/{id}/upload-image/` to. -/
theorem no_upload_image_route :
    RecipeViewSet.extra_actions = []
    ∧ RecipeViewSet.actions.contains "upload_image" = false
    ∧ RecipeViewSet.extra_actions.contains "upload_image" = false :=
  ⟨rfl, rfl, rfl⟩

/-! Facts about get-or-create. -/

theorem get_or_create_tag_spec (db : DB) (u : Nat) (n : String) :
    (get_or_create_tag db u n).1.user = u
    ∧ (get_or_create_tag db u n).1.name = n
    ∧ (get_or_create_tag db u n).1 ∈ (get_or_create_tag db u n).2.tags
    ∧ (∀ t ∈ db.tags, t ∈ (get_or_create_tag db u n).2.tags)
    ∧ (∀ t ∈ (get_or_create_tag db u n).2.tags,
        t ∈ db.tags ∨ t = (get_or_create_tag db u n).1) := by
  cases h : db.tags.find? (fun t => t.user == u && t.name == n) with
  | some t =>
    have hp := List.find?_some h
    have hm := List.mem_of_find?_eq_some h
    simp only [Bool.and_eq_true, beq_iff_eq] at hp
    simp only [get_or_create_tag, h]
    exact ⟨hp.1, hp.2, hm, fun t' ht' => ht', fun t' ht' => Or.inl ht'⟩
  | none =>
    refine ⟨by simp [get_or_create_tag, h], by simp [get_or_create_tag, h],
      by simp [get_or_create_tag, h], ?_, ?_⟩
    · intro t' ht'
      simp [get_or_create_tag, h, ht']
    · intro t' ht'
      simp only [get_or_create_tag, h] at ht'
      rcases List.mem_append.mp ht' with h1 | h1
      · exact Or.inl h1
      · right
        simp only [get_or_create_tag, h]
        simpa using h1

theorem get_or_create_tag_frame (db : DB) (u : Nat) (n : String) :
    (get_or_create_tag db u n).2.recipes = db.recipes
    ∧ (get_or_create_tag db u n).2.ingredients = db.ingredients := by
  cases h : db.tags.find? (fun t => t.user == u && t.name == n) <;>
    simp [get_or_create_tag, h]

theorem get_or_create_tag_wf {db : DB} (u : Nat) (n : String)
    (hwf : tagsWF db.tags) : tagsWF (get_or_create_tag db u n).2.tags := by
  cases h : db.tags.find? (fun t => t.user == u && t.name == n) with
  | some t => simpa [get_or_create_tag, h] using hwf
  | none =>
    simp only [get_or_create_tag, h]
    unfold tagsWF at hwf ⊢
    rw [List.map_append]
    refine List.nodup_append.mpr ⟨hwf, List.nodup_singleton _, ?_⟩
    intro q hq hq'
    rcases List.mem_map.mp hq with ⟨t, ht, hqt⟩
    simp only [List.map_cons, List.map_nil, List.mem_singleton] at hq'
    subst hq'
    have hu : t.user = u := congrArg Prod.fst hqt
    have hn : t.name = n := congrArg Prod.snd hqt
    exact List.find?_eq_none.mp h t ht (by simp [hu, hn])

theorem tagsWF_unique {ts : List Tag} (hwf : tagsWF ts) {t1 t2 : Tag}
    (h1 : t1 ∈ ts) (h2 : t2 ∈ ts) (hu : t1.user = t2.user)
    (hn : t1.name = t2.name) : t1 = t2 :=
  List.inj_on_of_nodup_map hwf h1 h2 (by rw [hu, hn])

theorem mem_addAssoc (assoc : List Nat) (y x : Nat) :
    x ∈ addAssoc assoc y ↔ x ∈ assoc ∨ x = y := by
  unfold addAssoc
  split
  next h =>
    constructor
    · exact Or.inl
    · rintro (hx | rfl)
      · exact hx
      · simpa using h
  next h =>
    simp [List.mem_append]

theorem gocTags_tags_mono (u : Nat) (names : List String) :
    ∀ (db : DB) (assoc : List Nat),
    ∀ t ∈ db.tags, t ∈ (get_or_create_tags db u names assoc).2.tags := by
  induction names with
  | nil => intro db assoc t ht; exact ht
  | cons n ns ih =>
    intro db assoc t ht
    simp only [get_or_create_tags]
    exact ih _ _ t ((get_or_create_tag_spec db u n).2.2.2.1 t ht)

theorem gocTags_frame (u : Nat) (names : List String) :
    ∀ (db : DB) (assoc : List Nat),
    (get_or_create_tags db u names assoc).2.recipes = db.recipes
    ∧ (get_or_create_tags db u names assoc).2.ingredients = db.ingredients := by
  induction names with
  | nil => intro db assoc; exact ⟨rfl, rfl⟩
  | cons n ns ih =>
    intro db assoc
    simp only [get_or_create_tags]
    exact ⟨by rw [(ih _ _).1, (get_or_create_tag_frame db u n).1],
      by rw [(ih _ _).2, (get_or_create_tag_frame db u n).2]⟩

theorem gocTags_wf (u : Nat) (names : List String) :
    ∀ (db : DB) (assoc : List Nat),
    tagsWF db.tags → tagsWF (get_or_create_tags db u names assoc).2.tags := by
  induction names with
  | nil => intro db assoc h; exact h
  | cons n ns ih =>
    intro db assoc h
    simp only [get_or_create_tags]
    exact ih _ _ (get_or_create_tag_wf u n h)

theorem gocTags_assoc_mono (u : Nat) (names : List String) :
    ∀ (db : DB) (assoc : List Nat) (x : Nat),
    x ∈ assoc → x ∈ (get_or_create_tags db u names assoc).1 := by
  induction names with
  | nil => intro db assoc x hx; exact hx
  | cons n ns ih =>
    intro db assoc x hx
    simp only [get_or_create_tags]
    exact ih _ _ x ((mem_addAssoc _ _ _).mpr (Or.inl hx))

theorem gocTags_forward (u : Nat) (names : List String) :
    ∀ (db : DB) (assoc : List Nat) (x : Nat),
    x ∈ (get_or_create_tags db u names assoc).1 →
    x ∈ assoc ∨ ∃ t ∈ (get_or_create_tags db u names assoc).2.tags,
      t.id = x ∧ t.user = u ∧ t.name ∈ names := by
  induction names with
  | nil => intro db assoc x hx; exact Or.inl hx
  | cons n ns ih =>
    intro db assoc x hx
    simp only [get_or_create_tags] at hx ⊢
    have spec := get_or_create_tag_spec db u n
    rcases ih _ _ x hx with h1 | h1
    · rcases (mem_addAssoc assoc (get_or_create_tag db u n).1.id x).mp h1 with h2 | h2
      · exact Or.inl h2
      · refine Or.inr ⟨(get_or_create_tag db u n).1,
          gocTags_tags_mono u ns _ _ _ spec.2.2.1, h2.symm, spec.1, ?_⟩
        rw [spec.2.1]
        exact List.mem_cons_self n ns
    · rcases h1 with ⟨t, htm, hid, hu, hn⟩
      exact Or.inr ⟨t, htm, hid, hu, List.mem_cons_of_mem n hn⟩

theorem gocTags_backward (u : Nat) (names : List String) :
    ∀ (db : DB) (assoc : List Nat), tagsWF db.tags →
    ∀ t ∈ (get_or_create_tags db u names assoc).2.tags,
    t.user = u → t.name ∈ names →
    t.id ∈ (get_or_create_tags db u names assoc).1 := by
  induction names with
  | nil => intro db assoc _ t _ _ hn; exact absurd hn (List.not_mem_nil _)
  | cons n ns ih =>
    intro db assoc hwf t htm hu hn
    simp only [get_or_create_tags] at htm ⊢
    have spec := get_or_create_tag_spec db u n
    rcases List.mem_cons.mp hn with h1 | h2
    · have hp1 : (get_or_create_tag db u n).1
          ∈ (get_or_create_tags (get_or_create_tag db u n).2 u ns
              (addAssoc assoc (get_or_create_tag db u n).1.id)).2.tags :=
        gocTags_tags_mono u ns _ _ _ spec.2.2.1
      have hwf' := gocTags_wf u ns (get_or_create_tag db u n).2
        (addAssoc assoc (get_or_create_tag db u n).1.id)
        (get_or_create_tag_wf u n hwf)
      have heq : t = (get_or_create_tag db u n).1 :=
        tagsWF_unique hwf' htm hp1 (by rw [hu, spec.1]) (by rw [h1, spec.2.1])
      rw [heq]
      exact gocTags_assoc_mono u ns _ _ _
        ((mem_addAssoc assoc (get_or_create_tag db u n).1.id _).mpr (Or.inr rfl))
    · exact ih _ _ (get_or_create_tag_wf u n hwf) t htm hu h2

/-- C1: a recipe update (the shared `RecipeSerializer.update` used by both PUT
and PATCH) whose validated data carries the `tags` key — even as an empty
list — fully replaces the association set: afterwards the linked ids are
exactly the ids of tag rows owned by the requesting user whose name is listed
in the payload, and in particular an empty list leaves zero associations. -/
theorem update_replaces_tags (db : DB) (auth_user : Nat) (inst : Recipe)
    (v : ValidatedData) (names : List String) (hwf : tagsWF db.tags)
    (hv : v.tags = some names) :
    (∀ x, x ∈ (RecipeSerializer.update db auth_user inst v).1.tagIds ↔
        ∃ t ∈ (RecipeSerializer.update db auth_user inst v).2.tags,
          t.id = x ∧ t.user = auth_user ∧ t.name ∈ names)
    ∧ (names = [] → (RecipeSerializer.update db auth_user inst v).1.tagIds = []) := by
  have h1 : (RecipeSerializer.update db auth_user inst v).1.tagIds
      = (get_or_create_tags db auth_user names []).1 := by
    simp [RecipeSerializer.update, hv, applyAttrs]
  have h2 : (RecipeSerializer.update db auth_user inst v).2.tags
      = (get_or_create_tags db auth_user names []).2.tags := by
    simp [RecipeSerializer.update, hv, saveRecipe]
  rw [h1, h2]
  constructor
  · intro x
    constructor
    · intro hx
      rcases gocTags_forward auth_user names db [] x hx with h | h
      · exact absurd h (List.not_mem_nil x)
      · exact h
    · rintro ⟨t, htm, hid, hu, hn⟩
      have := gocTags_backward auth_user names db [] hwf t htm hu hn
      rwa [hid] at this
  · rintro rfl
    rfl

/-- Concrete state for the full-replace witness: a recipe with one linked
Dessert tag, patched with an empty tags list. -/
def dbClearW : DB :=
  ⟨[⟨3, 7, "Sample", 22, 525, "", "", [1], []⟩], [⟨1, 7, "Dessert"⟩], [], 4, 2⟩

/-- The recipe instance of `dbClearW`. -/
def instClearW : Recipe := ⟨3, 7, "Sample", 22, 525, "", "", [1], []⟩

/-- Witness for C1: patching tags to the empty list clears all
associations. -/
theorem update_replaces_tags_witness :
    (RecipeSerializer.update dbClearW 7 instClearW { tags := some [] }).1.tagIds = [] :=
  (update_replaces_tags dbClearW 7 instClearW { tags := some [] } []
    (by decide) rfl).2 rfl

/-! Row counts per (user, name) pair. -/

theorem tagCount_append (ts : List Tag) (t : Tag) (u : Nat) (n : String) :
    tagCount (ts ++ [t]) u n
      = tagCount ts u n + (if t.user = u ∧ t.name = n then 1 else 0) := by
  unfold tagCount
  rw [List.filter_append, List.length_append]
  congr 1
  by_cases h : t.user = u ∧ t.name = n
  · simp [List.filter, h.1, h.2]
  · rcases not_and_or.mp h with h1 | h1
    · have hb : (t.user == u) = false := beq_eq_false_iff_ne.mpr h1
      simp [List.filter, hb, h]
    · have hb : (t.name == n) = false := beq_eq_false_iff_ne.mpr h1
      simp [List.filter, hb, h]

theorem tagCount_pos_iff (ts : List Tag) (u : Nat) (n : String) :
    0 < tagCount ts u n ↔ ∃ t ∈ ts, t.user = u ∧ t.name = n := by
  unfold tagCount
  rw [List.length_pos_iff_exists_mem]
  constructor
  · rintro ⟨t, htm⟩
    rcases List.mem_filter.mp htm with ⟨h1, h2⟩
    simp only [Bool.and_eq_true, beq_iff_eq] at h2
    exact ⟨t, h1, h2⟩
  · rintro ⟨t, h1, h2, h3⟩
    exact ⟨t, List.mem_filter.mpr ⟨h1, by simp [h2, h3]⟩⟩

theorem tagCount_zero_of_find?_none {ts : List Tag} {u : Nat} {n : String}
    (h : ts.find? (fun t => t.user == u && t.name == n) = none) :
    tagCount ts u n = 0 := by
  unfold tagCount
  rw [List.length_eq_zero, List.filter_eq_nil_iff]
  exact List.find?_eq_none.mp h

theorem find?_none_of_tagCount_zero {ts : List Tag} {u : Nat} {n : String}
    (h : tagCount ts u n = 0) :
    ts.find? (fun t => t.user == u && t.name == n) = none := by
  unfold tagCount at h
  rw [List.length_eq_zero, List.filter_eq_nil_iff] at h
  exact List.find?_eq_none.mpr h

theorem gocTags_count_preserved (u : Nat) (names : List String) :
    ∀ (db : DB) (assoc : List Nat) (u' : Nat) (n' : String),
    0 < tagCount db.tags u' n' →
    tagCount (get_or_create_tags db u names assoc).2.tags u' n'
      = tagCount db.tags u' n' := by
  induction names with
  | nil => intro db assoc u' n' _; rfl
  | cons n ns ih =>
    intro db assoc u' n' hpos
    simp only [get_or_create_tags]
    cases h : db.tags.find? (fun t => t.user == u && t.name == n) with
    | some t =>
      have hdb : (get_or_create_tag db u n).2 = db := by
        simp [get_or_create_tag, h]
      rw [hdb]
      exact ih _ _ _ _ hpos
    | none =>
      have hzero : tagCount db.tags u n = 0 := tagCount_zero_of_find?_none h
      have htags : (get_or_create_tag db u n).2.tags
          = db.tags ++ [⟨db.nextTagId, u, n⟩] := by
        simp [get_or_create_tag, h]
      have hne : ¬ (u = u' ∧ n = n') := by
        rintro ⟨rfl, rfl⟩
        omega
      have hcnt : tagCount (get_or_create_tag db u n).2.tags u' n'
          = tagCount db.tags u' n' := by
        rw [htags, tagCount_append]
        simp [hne]
      have hpos' : 0 < tagCount (get_or_create_tag db u n).2.tags u' n' := by
        rw [hcnt]; exact hpos
      rw [ih _ _ _ _ hpos', hcnt]

theorem gocTags_count_new (u : Nat) (names : List String) :
    ∀ (db : DB) (assoc : List Nat) (n : String), n ∈ names →
    tagCount db.tags u n = 0 →
    tagCount (get_or_create_tags db u names assoc).2.tags u n = 1 := by
  induction names with
  | nil => intro db assoc n hn _; exact absurd hn (List.not_mem_nil n)
  | cons m ms ih =>
    intro db assoc n hn hz
    simp only [get_or_create_tags]
    by_cases hmn : m = n
    · subst hmn
      have hfn : db.tags.find? (fun t => t.user == u && t.name == m) = none :=
        find?_none_of_tagCount_zero hz
      have htags : (get_or_create_tag db u m).2.tags
          = db.tags ++ [⟨db.nextTagId, u, m⟩] := by
        simp [get_or_create_tag, hfn]
      have h1 : tagCount (get_or_create_tag db u m).2.tags u m = 1 := by
        rw [htags, tagCount_append, hz]
        simp
      rw [gocTags_count_preserved u ms _ _ u m (by rw [h1]; exact Nat.one_pos)]
      exact h1
    · have hmem : n ∈ ms := by
        rcases List.mem_cons.mp hn with h1 | h1
        · exact absurd h1.symm hmn
        · exact h1
      cases hf : db.tags.find? (fun t => t.user == u && t.name == m) with
      | some t =>
        have hdb : (get_or_create_tag db u m).2 = db := by
          simp [get_or_create_tag, hf]
        rw [hdb]
        exact ih _ _ n hmem hz
      | none =>
        have htags : (get_or_create_tag db u m).2.tags
            = db.tags ++ [⟨db.nextTagId, u, m⟩] := by
          simp [get_or_create_tag, hf]
        have hz' : tagCount (get_or_create_tag db u m).2.tags u n = 0 := by
          rw [htags, tagCount_append, hz]
          simp [hmn]
        exact ih _ _ n hmem hz'

theorem gocTags_linked (u : Nat) (names : List String) (db1 : DB) (n : String)
    (hn : n ∈ names) (hwf : tagsWF db1.tags) :
    ∃ t ∈ (get_or_create_tags db1 u names []).2.tags,
      t.user = u ∧ t.name = n ∧ t.id ∈ (get_or_create_tags db1 u names []).1 := by
  have hpos : 0 < tagCount (get_or_create_tags db1 u names []).2.tags u n := by
    by_cases hz : tagCount db1.tags u n = 0
    · rw [gocTags_count_new u names db1 [] n hn hz]
      exact Nat.one_pos
    · rw [gocTags_count_preserved u names db1 [] u n (Nat.pos_of_ne_zero hz)]
      exact Nat.pos_of_ne_zero hz
  rcases (tagCount_pos_iff _ _ _).mp hpos with ⟨t, htm, hu, hname⟩
  exact ⟨t, htm, hu, hname,
    gocTags_backward u names db1 [] hwf t htm hu (hname ▸ hn)⟩

/-- C2: creating a recipe with a nested tag list reuses existing (user, name)
rows — their row count is unchanged, so no duplicate appears — creates exactly
one row (owned by the requesting user) for each listed name that had none, and
links every listed name to the new recipe through a row owned by that user. -/
theorem create_reuses_existing_tags (db : DB) (auth_user : Nat)
    (v : ValidatedData) (names : List String) (hwf : tagsWF db.tags)
    (hv : v.tags = some names) :
    ∀ n ∈ names,
      (0 < tagCount db.tags auth_user n →
        tagCount (RecipeSerializer.create db auth_user v).2.tags auth_user n
          = tagCount db.tags auth_user n)
      ∧ (tagCount db.tags auth_user n = 0 →
        tagCount (RecipeSerializer.create db auth_user v).2.tags auth_user n = 1)
      ∧ ∃ t ∈ (RecipeSerializer.create db auth_user v).2.tags,
          t.user = auth_user ∧ t.name = n
          ∧ t.id ∈ (RecipeSerializer.create db auth_user v).1.tagIds := by
  intro n hn
  simp only [RecipeSerializer.create, hv, saveRecipe, Option.getD_some]
  refine ⟨?_, ?_, ?_⟩
  · intro hpos
    exact gocTags_count_preserved auth_user names _ [] auth_user n hpos
  · intro hz
    exact gocTags_count_new auth_user names _ [] n hn hz
  · exact gocTags_linked auth_user names _ n hn hwf

/-- Concrete state for the reuse witness: user 7 already has an Indian tag and
creates a recipe listing Indian and Breakfast. -/
def dbIndianW : DB := ⟨[], [⟨1, 7, "Indian"⟩], [], 1, 2⟩

/-- The validated payload of the reuse witness. -/
def vIndianW : ValidatedData :=
  { title := some "Curry", tags := some ["Indian", "Breakfast"] }

/-- Witness for C2: the existing Indian row is reused, so its count does not
change. -/
theorem create_reuses_existing_tags_witness :
    tagCount (RecipeSerializer.create dbIndianW 7 vIndianW).2.tags 7 "Indian"
      = tagCount dbIndianW.tags 7 "Indian" :=
  ((create_reuses_existing_tags dbIndianW 7 vIndianW ["Indian", "Breakfast"]
    (by decide) rfl) "Indian" (by decide)).1 (by decide)

/-! Structural equations for the serializer operations. -/

theorem saveRecipe_recipes (db : DB) (r : Recipe) :
    (saveRecipe db r).recipes
      = db.recipes.map (fun x => if x.id == r.id then r else x) := rfl

theorem saveRecipe_tags (db : DB) (r : Recipe) :
    (saveRecipe db r).tags = db.tags := rfl

theorem saveRecipe_ingredients (db : DB) (r : Recipe) :
    (saveRecipe db r).ingredients = db.ingredients := rfl

theorem insertRecipe_recipes (db : DB) (r : Recipe) :
    (insertRecipe db r).recipes = db.recipes ++ [r] := rfl

theorem insertRecipe_tags (db : DB) (r : Recipe) :
    (insertRecipe db r).tags = db.tags := rfl

theorem insertRecipe_ingredients (db : DB) (r : Recipe) :
    (insertRecipe db r).ingredients = db.ingredients := rfl

theorem create_result_fst (db : DB) (u : Nat) (v : ValidatedData) :
    (RecipeSerializer.create db u v).1
      = { RecipeSerializer.newRow db u v with
          tagIds := (get_or_create_tags
            (insertRecipe db (RecipeSerializer.newRow db u v)) u
            (v.tags.getD []) []).1 } := rfl

theorem create_result_snd (db : DB) (u : Nat) (v : ValidatedData) :
    (RecipeSerializer.create db u v).2
      = saveRecipe
          (get_or_create_tags
            (insertRecipe db (RecipeSerializer.newRow db u v)) u
            (v.tags.getD []) []).2
          (RecipeSerializer.create db u v).1 := rfl

theorem update_result_fst (db : DB) (u : Nat) (inst : Recipe)
    (v : ValidatedData) (names : List String) (hv : v.tags = some names) :
    (RecipeSerializer.update db u inst v).1
      = applyAttrs
          { inst with tagIds := (get_or_create_tags db u names []).1 } v := by
  simp [RecipeSerializer.update, hv]

theorem update_result_fst_none (db : DB) (u : Nat) (inst : Recipe)
    (v : ValidatedData) (hv : v.tags = none) :
    (RecipeSerializer.update db u inst v).1
      = applyAttrs { inst with tagIds := inst.tagIds } v := by
  simp [RecipeSerializer.update, hv]

theorem update_result_snd (db : DB) (u : Nat) (inst : Recipe)
    (v : ValidatedData) (names : List String) (hv : v.tags = some names) :
    (RecipeSerializer.update db u inst v).2
      = saveRecipe (get_or_create_tags db u names []).2
          (RecipeSerializer.update db u inst v).1 := by
  simp [RecipeSerializer.update, hv]

theorem update_result_snd_none (db : DB) (u : Nat) (inst : Recipe)
    (v : ValidatedData) (hv : v.tags = none) :
    (RecipeSerializer.update db u inst v).2
      = saveRecipe db (RecipeSerializer.update db u inst v).1 := by
  simp [RecipeSerializer.update, hv]

theorem applyAttrs_id (r : Recipe) (v : ValidatedData) :
    (applyAttrs r v).id = r.id := rfl

theorem applyAttrs_tagIds (r : Recipe) (v : ValidatedData) :
    (applyAttrs r v).tagIds = r.tagIds := rfl

theorem applyAttrs_ingredientIds (r : Recipe) (v : ValidatedData) :
    (applyAttrs r v).ingredientIds = r.ingredientIds := rfl

theorem applyAttrs_user (r : Recipe) (v : ValidatedData) (hvu : v.user = none) :
    (applyAttrs r v).user = r.user := by
  simp [applyAttrs, hvu]

/-- Every recipe row after a serializer update keeps the id and owner of some
row present before, provided the validated data carries no `user` key. -/
theorem update_owner_frame (db : DB) (auth_user : Nat) (inst : Recipe)
    (v : ValidatedData) (hvu : v.user = none) (hinst : inst ∈ db.recipes) :
    ∀ x ∈ (RecipeSerializer.update db auth_user inst v).2.recipes,
      ∃ x0 ∈ db.recipes, x0.id = x.id ∧ x0.user = x.user := by
  intro x hx
  have hu1 : (RecipeSerializer.update db auth_user inst v).1.user = inst.user := by
    cases hv : v.tags with
    | none => rw [update_result_fst_none db auth_user inst v hv, applyAttrs_user _ _ hvu]
    | some names => rw [update_result_fst db auth_user inst v names hv, applyAttrs_user _ _ hvu]
  have hid1 : (RecipeSerializer.update db auth_user inst v).1.id = inst.id := by
    cases hv : v.tags with
    | none => rw [update_result_fst_none db auth_user inst v hv, applyAttrs_id]
    | some names => rw [update_result_fst db auth_user inst v names hv, applyAttrs_id]
  have hrec : (RecipeSerializer.update db auth_user inst v).2.recipes
      = db.recipes.map (fun q =>
          if q.id == (RecipeSerializer.update db auth_user inst v).1.id
          then (RecipeSerializer.update db auth_user inst v).1 else q) := by
    cases hv : v.tags with
    | none => rw [update_result_snd_none db auth_user inst v hv, saveRecipe_recipes]
    | some names =>
      rw [update_result_snd db auth_user inst v names hv, saveRecipe_recipes,
        (gocTags_frame auth_user names db []).1]
  rw [hrec] at hx
  rcases List.mem_map.mp hx with ⟨x0, hx0, hfx⟩
  by_cases hb : (x0.id == (RecipeSerializer.update db auth_user inst v).1.id) = true
  · rw [if_pos hb] at hfx
    subst hfx
    exact ⟨inst, hinst, hid1.symm, hu1.symm⟩
  · rw [if_neg hb] at hfx
    subst hfx
    exact ⟨x0, hx0, rfl, rfl⟩

/-- C8: a recipe update request (PUT or PATCH), even one whose payload carries
a `user` key, never transfers ownership: validation drops the undeclared
`user` key, and every recipe row in the resulting state keeps the id and owner
of a row that was already present before the request. -/
theorem update_ignores_user_key (db : DB) (ru rid : Nat) (m : Method)
    (raw : RawPayload) (hm : m = .put ∨ m = .patch) :
    (to_internal_value RecipeDetailSerializer.fields
        RecipeDetailSerializer.read_only_fields raw).user = none
    ∧ ∀ x ∈ (recipeDetailRequest db ru rid m raw).db.recipes,
        ∃ x0 ∈ db.recipes, x0.id = x.id ∧ x0.user = x.user := by
  have huser : (to_internal_value RecipeDetailSerializer.fields
      RecipeDetailSerializer.read_only_fields raw).user = none := by
    simp [to_internal_value, keepField, writableB, RecipeDetailSerializer.fields,
      RecipeSerializer.fields, RecipeDetailSerializer.read_only_fields,
      RecipeSerializer.read_only_fields]
  refine ⟨huser, ?_⟩
  cases hobj : RecipeViewSet.get_object db ru rid with
  | none =>
    rcases hm with rfl | rfl <;>
    · intro x hx
      simp [recipeDetailRequest, detailActionName, RecipeViewSet.actions, hobj] at hx
      exact ⟨x, hx, rfl, rfl⟩
  | some inst =>
    have hmem := (recipe_get_object_spec hobj).1
    rcases hm with rfl | rfl <;>
    · intro x hx
      simp [recipeDetailRequest, detailActionName, RecipeViewSet.actions, hobj,
        RecipeViewSet.get_serializer_class] at hx
      exact update_owner_frame db ru inst _ huser hmem x hx

/-- Witness for C8: the dropped `user` key of a concrete patch payload. -/
theorem update_ignores_user_key_witness :
    (to_internal_value RecipeDetailSerializer.fields
      RecipeDetailSerializer.read_only_fields { user := some 9 }).user = none :=
  (update_ignores_user_key dbClearW 7 3 .patch { user := some 9 } (Or.inr rfl)).1

/-! Preservation of the ownership invariant. -/

theorem detail_validated_user_none (raw : RawPayload) :
    (to_internal_value RecipeDetailSerializer.fields
      RecipeDetailSerializer.read_only_fields raw).user = none := by
  simp [to_internal_value, keepField, writableB, RecipeDetailSerializer.fields,
    RecipeSerializer.fields, RecipeDetailSerializer.read_only_fields,
    RecipeSerializer.read_only_fields]

theorem update_result_fields (db : DB) (u : Nat) (inst : Recipe)
    (v : ValidatedData) (hvu : v.user = none) :
    (RecipeSerializer.update db u inst v).1.user = inst.user
    ∧ (RecipeSerializer.update db u inst v).1.id = inst.id
    ∧ (RecipeSerializer.update db u inst v).1.ingredientIds
        = inst.ingredientIds := by
  cases hv : v.tags with
  | none =>
    rw [update_result_fst_none db u inst v hv]
    exact ⟨applyAttrs_user _ _ hvu, applyAttrs_id _ _, applyAttrs_ingredientIds _ _⟩
  | some names =>
    rw [update_result_fst db u inst v names hv]
    exact ⟨applyAttrs_user _ _ hvu, applyAttrs_id _ _, applyAttrs_ingredientIds _ _⟩

theorem create_preserves_ownInv (db : DB) (u : Nat) (v : ValidatedData)
    (hinv : ownInv db) : ownInv (RecipeSerializer.create db u v).2 := by
  intro r' hr'
  have htags : (RecipeSerializer.create db u v).2.tags
      = (get_or_create_tags (insertRecipe db (RecipeSerializer.newRow db u v)) u
          (v.tags.getD []) []).2.tags := by
    rw [create_result_snd, saveRecipe_tags]
  have hingr : (RecipeSerializer.create db u v).2.ingredients = db.ingredients := by
    rw [create_result_snd, saveRecipe_ingredients,
      (gocTags_frame u (v.tags.getD [])
        (insertRecipe db (RecipeSerializer.newRow db u v)) []).2,
      insertRecipe_ingredients]
  have hrecs : (RecipeSerializer.create db u v).2.recipes
      = (db.recipes ++ [RecipeSerializer.newRow db u v]).map
          (fun q => if q.id == (RecipeSerializer.create db u v).1.id
            then (RecipeSerializer.create db u v).1 else q) := by
    rw [create_result_snd, saveRecipe_recipes,
      (gocTags_frame u (v.tags.getD [])
        (insertRecipe db (RecipeSerializer.newRow db u v)) []).1,
      insertRecipe_recipes]
  rw [hrecs] at hr'
  rcases List.mem_map.mp hr' with ⟨x0, hx0, hfx⟩
  by_cases hb : (x0.id == (RecipeSerializer.create db u v).1.id) = true
  · rw [if_pos hb] at hfx
    subst hfx
    have huser : (RecipeSerializer.create db u v).1.user = u := rfl
    have hing0 : (RecipeSerializer.create db u v).1.ingredientIds = [] := rfl
    constructor
    · intro x hx
      rcases gocTags_forward u (v.tags.getD [])
          (insertRecipe db (RecipeSerializer.newRow db u v)) [] x hx with h | h
      · exact absurd h (List.not_mem_nil x)
      · rcases h with ⟨t, htm, hid, htu, _⟩
        refine ⟨t, ?_, hid, ?_⟩
        · rw [htags]; exact htm
        · rw [htu, huser]
    · intro x hx
      rw [hing0] at hx
      exact absurd hx (List.not_mem_nil x)
  · rw [if_neg hb] at hfx
    subst hfx
    rcases List.mem_append.mp hx0 with h | h
    · rcases hinv x0 h with ⟨htg, hig⟩
      constructor
      · intro x hx
        rcases htg x hx with ⟨t, htm, hid, htu⟩
        refine ⟨t, ?_, hid, htu⟩
        rw [htags]
        exact gocTags_tags_mono u (v.tags.getD [])
          (insertRecipe db (RecipeSerializer.newRow db u v)) [] t htm
      · intro x hx
        rcases hig x hx with ⟨t, htm, hid, htu⟩
        refine ⟨t, ?_, hid, htu⟩
        rw [hingr]
        exact htm
    · exfalso
      apply hb
      have hx0' : x0 = RecipeSerializer.newRow db u v := by simpa using h
      rw [hx0', create_result_fst]
      exact beq_self_eq_true _

theorem update_preserves_ownInv (db : DB) (auth_user : Nat) (inst : Recipe)
    (v : ValidatedData) (hvu : v.user = none) (hinst : inst ∈ db.recipes)
    (hiu : inst.user = auth_user) (hinv : ownInv db) :
    ownInv (RecipeSerializer.update db auth_user inst v).2 := by
  intro r' hr'
  have hfields := update_result_fields db auth_user inst v hvu
  cases hv : v.tags with
  | none =>
    have htags : (RecipeSerializer.update db auth_user inst v).2.tags = db.tags := by
      rw [update_result_snd_none db auth_user inst v hv, saveRecipe_tags]
    have hingr : (RecipeSerializer.update db auth_user inst v).2.ingredients
        = db.ingredients := by
      rw [update_result_snd_none db auth_user inst v hv, saveRecipe_ingredients]
    have hrecs : (RecipeSerializer.update db auth_user inst v).2.recipes
        = db.recipes.map (fun q =>
            if q.id == (RecipeSerializer.update db auth_user inst v).1.id
            then (RecipeSerializer.update db auth_user inst v).1 else q) := by
      rw [update_result_snd_none db auth_user inst v hv, saveRecipe_recipes]
    rw [hrecs] at hr'
    rcases List.mem_map.mp hr' with ⟨x0, hx0, hfx⟩
    by_cases hb : (x0.id == (RecipeSerializer.update db auth_user inst v).1.id) = true
    · rw [if_pos hb] at hfx
      subst hfx
      have htid : (RecipeSerializer.update db auth_user inst v).1.tagIds
          = inst.tagIds := by
        rw [update_result_fst_none db auth_user inst v hv, applyAttrs_tagIds]
      rcases hinv inst hinst with ⟨htg, hig⟩
      constructor
      · intro x hx
        rw [htid] at hx
        rcases htg x hx with ⟨t, htm, hid, htu⟩
        exact ⟨t, by rw [htags]; exact htm, hid, by rw [htu, hfields.1]⟩
      · intro x hx
        rw [hfields.2.2] at hx
        rcases hig x hx with ⟨t, htm, hid, htu⟩
        exact ⟨t, by rw [hingr]; exact htm, hid, by rw [htu, hfields.1]⟩
    · rw [if_neg hb] at hfx
      subst hfx
      rcases hinv x0 hx0 with ⟨htg, hig⟩
      constructor
      · intro x hx
        rcases htg x hx with ⟨t, htm, hid, htu⟩
        exact ⟨t, by rw [htags]; exact htm, hid, htu⟩
      · intro x hx
        rcases hig x hx with ⟨t, htm, hid, htu⟩
        exact ⟨t, by rw [hingr]; exact htm, hid, htu⟩
  | some names =>
    have htags : (RecipeSerializer.update db auth_user inst v).2.tags
        = (get_or_create_tags db auth_user names []).2.tags := by
      rw [update_result_snd db auth_user inst v names hv, saveRecipe_tags]
    have hingr : (RecipeSerializer.update db auth_user inst v).2.ingredients
        = db.ingredients := by
      rw [update_result_snd db auth_user inst v names hv, saveRecipe_ingredients,
        (gocTags_frame auth_user names db []).2]
    have hrecs : (RecipeSerializer.update db auth_user inst v).2.recipes
        = db.recipes.map (fun q =>
            if q.id == (RecipeSerializer.update db auth_user inst v).1.id
            then (RecipeSerializer.update db auth_user inst v).1 else q) := by
      rw [update_result_snd db auth_user inst v names hv, saveRecipe_recipes,
        (gocTags_frame auth_user names db []).1]
    rw [hrecs] at hr'
    rcases List.mem_map.mp hr' with ⟨x0, hx0, hfx⟩
    by_cases hb : (x0.id == (RecipeSerializer.update db auth_user inst v).1.id) = true
    · rw [if_pos hb] at hfx
      subst hfx
      have htid : (RecipeSerializer.update db auth_user inst v).1.tagIds
          = (get_or_create_tags db auth_user names []).1 := by
        rw [update_result_fst db auth_user inst v names hv, applyAttrs_tagIds]
      constructor
      · intro x hx
        rw [htid] at hx
        rcases gocTags_forward auth_user names db [] x hx with h | h
        · exact absurd h (List.not_mem_nil x)
        · rcases h with ⟨t, htm, hid, htu, _⟩
          refine ⟨t, by rw [htags]; exact htm, hid, ?_⟩
          rw [htu, hfields.1, hiu]
      · intro x hx
        rw [hfields.2.2] at hx
        rcases (hinv inst hinst).2 x hx with ⟨t, htm, hid, htu⟩
        exact ⟨t, by rw [hingr]; exact htm, hid, by rw [htu, hfields.1]⟩
    · rw [if_neg hb] at hfx
      subst hfx
      rcases hinv x0 hx0 with ⟨htg, hig⟩
      constructor
      · intro x hx
        rcases htg x hx with ⟨t, htm, hid, htu⟩
        refine ⟨t, ?_, hid, htu⟩
        rw [htags]
        exact gocTags_tags_mono auth_user names db [] t htm
      · intro x hx
        rcases hig x hx with ⟨t, htm, hid, htu⟩
        exact ⟨t, by rw [hingr]; exact htm, hid, htu⟩

/-- C3: the ownership invariant — every tag and ingredient linked to a recipe
is owned by the same user as the recipe — is preserved by the recipe create
endpoint and by every recipe detail request, because tags are looked up or
created only under the requesting user and no cross-user id is accepted (the
`user` key is not writable, and nested tags are matched by name under the
requester). -/
theorem ownership_invariant_preserved (db : DB) (ru rid : Nat) (m : Method)
    (raw : RawPayload) (hinv : ownInv db) :
    ownInv (recipeCreateRequest db ru raw).2
    ∧ ownInv (recipeDetailRequest db ru rid m raw).db := by
  constructor
  · exact create_preserves_ownInv db ru
      (to_internal_value (RecipeViewSet.get_serializer_class "create").1
        (RecipeViewSet.get_serializer_class "create").2 raw) hinv
  · cases hobj : RecipeViewSet.get_object db ru rid with
    | none =>
      have hred : ∀ mm, recipeDetailRequest db ru rid mm raw = ⟨404, db⟩ := by
        intro mm
        cases mm <;>
          simp [recipeDetailRequest, detailActionName, RecipeViewSet.actions, hobj]
      rw [hred m]
      exact hinv
    | some inst =>
      have hspec := recipe_get_object_spec hobj
      cases m with
      | get =>
        have hred : recipeDetailRequest db ru rid .get raw = ⟨200, db⟩ := by
          simp [recipeDetailRequest, detailActionName, RecipeViewSet.actions, hobj]
        rw [hred]
        exact hinv
      | delete =>
        have hred : recipeDetailRequest db ru rid .delete raw
            = ⟨204, { db with recipes := db.recipes.filter (fun r => !(r == inst)) }⟩ := by
          simp [recipeDetailRequest, detailActionName, RecipeViewSet.actions, hobj]
        rw [hred]
        intro r' hr'
        exact hinv r' (List.mem_of_mem_filter hr')
      | put =>
        have hred : recipeDetailRequest db ru rid .put raw
            = ⟨200, (RecipeSerializer.update db ru inst
                (to_internal_value RecipeDetailSerializer.fields
                  RecipeDetailSerializer.read_only_fields raw)).2⟩ := by
          simp [recipeDetailRequest, detailActionName, RecipeViewSet.actions, hobj,
            RecipeViewSet.get_serializer_class]
        rw [hred]
        exact update_preserves_ownInv db ru inst _
          (detail_validated_user_none raw) hspec.1 hspec.2.1 hinv
      | patch =>
        have hred : recipeDetailRequest db ru rid .patch raw
            = ⟨200, (RecipeSerializer.update db ru inst
                (to_internal_value RecipeDetailSerializer.fields
                  RecipeDetailSerializer.read_only_fields raw)).2⟩ := by
          simp [recipeDetailRequest, detailActionName, RecipeViewSet.actions, hobj,
            RecipeViewSet.get_serializer_class]
        rw [hred]
        exact update_preserves_ownInv db ru inst _
          (detail_validated_user_none raw) hspec.1 hspec.2.1 hinv

/-- Concrete state for the invariant witness: user 7 owns one recipe linked to
their Dessert tag. -/
def dbInvW : DB :=
  ⟨[⟨3, 7, "Pie", 10, 300, "", "", [1], []⟩], [⟨1, 7, "Dessert"⟩], [], 4, 2⟩

/-- Witness for C3: the invariant holds after a concrete create request with a
nested tag. -/
theorem ownership_invariant_preserved_witness :
    ownInv (recipeCreateRequest dbInvW 7
      { title := some "Choc", tags := some ["Thai"] }).2 :=
  (ownership_invariant_preserved dbInvW 7 3 .patch
    { title := some "Choc", tags := some ["Thai"] } (by decide)).1

/-- An empty database state. -/
def dbEmpty : DB := ⟨[], [], [], 1, 1⟩

/-- The payload of the repository's own
`test_create_recipe_with_new_ingredients` (price carried as cents). -/
def ingredientsPayload : RawPayload :=
  { title := some "Chocolate cheesecake", time_minutes := some 30,
    price := some 599, ingredients := some ["Chocolate", "Cheese"] }

/-- C6: the repository's tests assert ingredient handling, but the serializer
declares no `ingredients` field, so validation drops the key; the created
recipe carries zero ingredient associations and no ingredient row exists,
whereas `test_create_recipe_with_new_ingredients` asserts two linked
ingredient rows. -/
theorem ingredients_key_dropped :
    (to_internal_value RecipeDetailSerializer.fields
        RecipeDetailSerializer.read_only_fields ingredientsPayload).ingredients
      = none
    ∧ (recipeCreateRequest dbEmpty 1 ingredientsPayload).1.ingredientIds = []
    ∧ (recipeCreateRequest dbEmpty 1 ingredientsPayload).2.ingredients.length = 0
    ∧ RecipeSerializer.fields.contains "ingredients" = false := by decide

end RecipeApp
